import Mathlib

/-!
Verification development for the apple-price backend (Go).

Shallow embedding conventions:
* Go strings are modelled as Lean `String` / `List Char`; the repository's
  string data is ASCII (product IDs, status keywords, bark keys), where Go's
  byte-level operations coincide with the char-level operations used here.
* Go `float64` prices, discounts and timestamps are modelled as `ℚ`
  (timestamps in seconds, so `time.Duration.Hours()/24` becomes `/86400`).
* Go maps are modelled as association lists with `lookupA` / `insertA`.
* External collaborators (the Bark notifier, `json.Unmarshal`, the detail
  fetcher) are parameters of the embedded functions.
-/

/-- Byte-wise ASCII lowercasing, from `toLower` in notify/dispatcher.go:
only the range between the characters A and Z is shifted by 32. -/
def toLowerChar (c : Char) : Char :=
  if 'A' ≤ c ∧ c ≤ 'Z' then Char.ofNat (c.toNat + 32) else c

/-- Lowercase every character of a list (the `toLower` loop). -/
def lowerL (l : List Char) : List Char := l.map toLowerChar

/-- `startsWithL hay needle` holds when `needle` is an initial segment of
`hay`; models the Go slice comparison `s[0:len(sub)] == sub`. -/
def startsWithL : List Char → List Char → Bool
  | _, [] => true
  | [], _ :: _ => false
  | c :: cs, d :: ds => c = d && startsWithL cs ds

/-- The scanning loop of `containsIgnoreCase` in notify/dispatcher.go:
`for i := 0; i <= len(s)-len(substr); i++ { if s[i:i+len(substr)] == substr
{ return true } }`.  When the needle is longer than the remaining haystack
every window comparison fails, so scanning the extra short suffixes that Go
never visits does not change the result. -/
def substrScan (needle : List Char) : List Char → Bool
  | [] => startsWithL [] needle
  | c :: rest => startsWithL (c :: rest) needle || substrScan needle rest

/-- `containsIgnoreCase` from notify/dispatcher.go: lowercase both strings,
then scan for a window equal to the needle. -/
def containsIgnoreCase (s substr : List Char) : Bool :=
  substrScan (lowerL substr) (lowerL s)

/-- `contains` from notify/dispatcher.go, translated clause by clause:
`len(s) >= len(substr) && (s == substr || len(s) > len(substr) &&
(s[:len(substr)] == substr || s[len(s)-len(substr):] == substr ||
containsIgnoreCase(s, substr)))`. -/
def containsGo (s substr : List Char) : Bool :=
  decide (s.length ≥ substr.length) &&
    (decide (s = substr) ||
      (decide (s.length > substr.length) &&
        (decide (s.take substr.length = substr) ||
          decide (s.drop (s.length - substr.length) = substr) ||
          containsIgnoreCase s substr)))

/-- `model.Product` (backend/internal/model/product.go). -/
structure Product where
  id : String
  name : String
  category : String
  region : String
  price : ℚ
  originalPrice : ℚ
  discount : ℚ
  imageURL : String
  productURL : String
  specs : String
  specsDetail : String
  description : String
  stockStatus : String
  valueScore : ℚ
  lowestPrice : ℚ
  highestPrice : ℚ
  priceTrend : String
  createdAt : ℚ
  updatedAt : ℚ
deriving DecidableEq

/-- `model.PriceHistory`. -/
structure PriceHistory where
  productID : String
  price : ℚ
  timestamp : ℚ
  discount : ℚ
deriving DecidableEq

instance : Inhabited PriceHistory := ⟨⟨"", 0, 0, 0⟩⟩

/-- `model.Subscription` (price-change subscriptions). -/
structure Subscription where
  id : String
  productID : String
  barkKey : String
  targetPrice : ℚ
  createdAt : ℚ
deriving DecidableEq

/-- `model.NewArrivalSubscription`. -/
structure NewArrivalSubscription where
  id : String
  name : String
  categories : List String
  models : List String
  chips : List String
  storages : List String
  memories : List String
  stockStatuses : List String
  maxPrice : ℚ
  minPrice : ℚ
  keywords : List String
  barkKey : String
  notifiedProductIDs : String
  enabled : Bool
  paused : Bool
  notificationCount : ℕ
deriving DecidableEq

/-- A record of one invocation of the external Bark notifier, with the
outcome reported by the transport. -/
structure SendEvent where
  subID : String
  barkKey : String
  success : Bool
deriving DecidableEq

/-- `Dispatcher.matchesSubscription` (notify/dispatcher.go lines 181-220).
The Go function checks, in order: category membership, the price range, and
keyword containment in the product name; the `Models`, `Chips`, `Storages`,
`Memories` and `StockStatuses` fields of the subscription are not read. -/
def Dispatcher.matchesSubscription (product : Product) (sub : NewArrivalSubscription) : Bool :=
  if sub.categories.length > 0 ∧ ¬ sub.categories.any (fun cat => cat = product.category) then
    false
  else if sub.minPrice > 0 ∧ product.price < sub.minPrice then
    false
  else if sub.maxPrice > 0 ∧ product.price > sub.maxPrice then
    false
  else if sub.keywords.length > 0 ∧
      ¬ sub.keywords.any (fun kw => containsGo product.name.data kw.data) then
    false
  else
    true

/-- `Dispatcher.NotifyPriceChange` (notify/dispatcher.go lines 37-94).
Each subscription is handled by its own goroutine joined by a wait group;
the multiset of notifier invocations is modelled here in list order.  The
Bark transport is the parameter `send` (`true` = delivered); `barkAvailable`
models `bark != nil`.  Send errors are pushed on a channel and only logged:
the function always returns a nil error, so no error value is modelled. -/
def Dispatcher.notifyPriceChange (send : Subscription → Bool) (barkAvailable : Bool)
    (newPrice : ℚ) (subs : List Subscription) : List SendEvent :=
  if subs.length = 0 then []
  else
    subs.foldl (fun acc s =>
      if s.targetPrice > 0 ∧ newPrice > s.targetPrice then
        acc
      else if s.barkKey ≠ "" ∧ barkAvailable then
        acc ++ [⟨s.id, s.barkKey, send s⟩]
      else
        acc) []

/-- Go map lookup on an association list (`m[k]`, second result of the
comma-ok idiom encoded as `Option`). -/
def lookupA {α : Type} : List (String × α) → String → Option α
  | [], _ => none
  | (k, v) :: rest, key => if k = key then some v else lookupA rest key

/-- Go map update on an association list (`m[k] = v`): replaces the first
binding of `k`, or appends a new binding. -/
def insertA {α : Type} : List (String × α) → String → α → List (String × α)
  | [], key, v => [(key, v)]
  | (k, v0) :: rest, key, v =>
    if k = key then (key, v) :: rest else (k, v0) :: insertA rest key v

/-- `maxHistoryPerProduct` from the JSON store source file. -/
def maxHistoryPerProduct : ℕ := 100

/-- State of the in-memory JSON `Store`: the `products` and `history` maps.
(The subscription maps are modelled separately where needed.) -/
structure StoreState where
  products : List (String × Product)
  history : List (String × List PriceHistory)
deriving DecidableEq

/-- `Store.calculateValueScore` from the JSON store: base 50, plus discount,
trend, stock, price-position and age components, clamped to [0,100] at the
end.  `now` and `createdAt` are in seconds, so `now.Sub(CreatedAt).Hours()/24`
is `(now - createdAt) / 86400`. -/
def Store.calculateValueScore (product : Product) (history : List PriceHistory)
    (now : ℚ) : ℚ :=
  let score : ℚ := 50
  let score := score +
    (if product.discount ≥ 15 then 30
     else if product.discount ≥ 12 then 25
     else if product.discount ≥ 10 then 20
     else if product.discount ≥ 8 then 15
     else if product.discount ≥ 5 then 10
     else product.discount * 2)
  let score := score +
    (if history.length ≥ 2 then
      let firstPrice := (history.headD default).price
      let lastPrice := (history.getLastD default).price
      let change := (lastPrice - firstPrice) / firstPrice
      if change < -(2 / 100) then 25
      else if change < -(1 / 100) then 20
      else if change < 0 then 15
      else if change > 2 / 100 then 0
      else 10
    else 0)
  let score := score +
    (if product.stockStatus = "available" then 15
     else if product.stockStatus = "limited" then 10
     else 0)
  let score := score +
    (if history.length ≥ 2 then
      let h0 := (history.headD default).price
      let mm := history.foldl
        (fun (mm : ℚ × ℚ) h =>
          (if h.price < mm.1 then h.price else mm.1,
           if h.price > mm.2 then h.price else mm.2)) (h0, h0)
      if mm.2 > mm.1 then
        let position := (product.price - mm.1) / (mm.2 - mm.1)
        if position ≤ 1 / 10 then 20
        else if position ≤ 3 / 10 then 15
        else if position ≤ 5 / 10 then 10
        else if position ≤ 7 / 10 then 5
        else 0
      else 10
    else 0)
  let daysSinceCreation := (now - product.createdAt) / 86400
  let score := score +
    (if daysSinceCreation ≤ 7 then 10
     else if daysSinceCreation ≤ 30 then 7
     else if daysSinceCreation ≤ 90 then 3
     else 0)
  if score > 100 then 100
  else if score < 0 then 0
  else score

/-- `Store.updatePriceStats`: recomputes lowest/highest observed price and
the three-point trend from the history; no-op on empty history. -/
def Store.updatePriceStats (product : Product) (history : List PriceHistory) : Product :=
  if history.length = 0 then product
  else
    let h0 := (history.headD default).price
    let mm := history.foldl
      (fun (mm : ℚ × ℚ) h =>
        (if h.price < mm.1 then h.price else mm.1,
         if h.price > mm.2 then h.price else mm.2)) (h0, h0)
    let product := { product with lowestPrice := mm.1, highestPrice := mm.2 }
    if history.length ≥ 3 then
      let recent := history.drop (history.length - 3)
      let startPrice := (recent.headD default).price
      let endPrice := ((recent.drop 2).headD default).price
      let change := (endPrice - startPrice) / startPrice
      if change < -(2 / 100) then { product with priceTrend := "falling" }
      else if change > 2 / 100 then { product with priceTrend := "rising" }
      else { product with priceTrend := "stable" }
    else product

/-- Tail of `Store.UpsertProduct` (after the exists/new case split): sets
`UpdatedAt`, recomputes the value score from the (already mutated) history,
updates the price stats and stores the record. -/
def Store.finishUpsert (products : List (String × Product))
    (history : List (String × List PriceHistory)) (p : Product) (now : ℚ)
    (priceChanged : Bool) (oldPrice : ℚ) : StoreState × Bool × ℚ :=
  let h := (lookupA history p.id).getD []
  let p := { p with updatedAt := now }
  let p := { p with valueScore := Store.calculateValueScore p h now }
  let p := Store.updatePriceStats p h
  (⟨insertA products p.id p, history⟩, priceChanged, oldPrice)

/-- `Store.UpsertProduct` from the JSON store (src/unnamed part, lines
215-268): on a repeat sight with a differing price, the previous price is
appended to the history (trimmed to `maxHistoryPerProduct` by dropping the
oldest entry) and returned as `oldPrice` with `priceChanged = true`; the
creation timestamp of the stored record is preserved.  On first sight the
creation timestamp is set to `now` and the history is initialised with one
entry at the candidate's price.  The returned triple is
(new state, priceChanged, oldPrice). -/
def Store.upsertProduct (st : StoreState) (product : Product) (now : ℚ) :
    StoreState × Bool × ℚ :=
  match lookupA st.products product.id with
  | some existing =>
    if existing.price ≠ product.price then
      let h0 := (lookupA st.history product.id).getD []
      let h1 := h0 ++ [⟨product.id, existing.price, now, existing.discount⟩]
      let h2 := if h1.length > maxHistoryPerProduct then h1.drop 1 else h1
      let hist := insertA st.history product.id h2
      let p1 := { product with createdAt := existing.createdAt }
      Store.finishUpsert st.products hist p1 now true existing.price
    else
      let p1 := { product with createdAt := existing.createdAt }
      Store.finishUpsert st.products st.history p1 now false 0
  | none =>
    let p1 := { product with createdAt := now }
    let hist := insertA st.history product.id
      [⟨product.id, product.price, now, product.discount⟩]
    Store.finishUpsert st.products hist p1 now false 0

/-- The scheduler's new-product test (scraper scheduler, `runScrape`):
`isNewProduct := !priceChanged && oldPrice == 0`. -/
def Scheduler.isNewProduct (priceChanged : Bool) (oldPrice : ℚ) : Bool :=
  !priceChanged && decide (oldPrice = 0)

/-- Go `strings.Split(s, ",")` for the one-character separator used by
`Store.UpdateNotifiedProductIDs`. -/
def splitOnCommaL : List Char → List (List Char)
  | [] => [[]]
  | c :: rest =>
    if c = ',' then [] :: splitOnCommaL rest
    else
      match splitOnCommaL rest with
      | [] => [[c]]
      | p :: ps => (c :: p) :: ps

/-- Go `strings.TrimSpace`: drop whitespace from both ends. -/
def trimSpaceL (l : List Char) : List Char :=
  ((l.dropWhile Char.isWhitespace).reverse.dropWhile Char.isWhitespace).reverse

/-- Go `strings.Trim(s, "\x22")`: drop double-quote characters from both
ends. -/
def trimQuoteL (l : List Char) : List Char :=
  ((l.dropWhile (fun c => c = '"')).reverse.dropWhile (fun c => c = '"')).reverse

/-- Wrap an ID in double quotes, as in the `"\x22" + id + "\x22"` step of
`Store.UpdateNotifiedProductIDs`. -/
def quoteL (id : List Char) : List Char := '"' :: id ++ ['"']

/-- Go `strings.Join(parts, ",")`. -/
def joinCommaL : List (List Char) → List Char
  | [] => []
  | [p] => p
  | p :: q :: rest => p ++ ',' :: joinCommaL (q :: rest)

/-- The parsing phase of `Store.UpdateNotifiedProductIDs` (JSON store):
unless the stored string is empty or the literal two-character empty array,
strip the first and last byte, split on commas, trim whitespace then quotes
from each piece, and keep the nonempty results.  (The Go loop appends the
kept pieces in order, which is `map` + `filter`.)  Go would panic on a
one-byte string at the slice `s[1:len(s)-1]`; the Lean functions are total
there, and the theorems below are stated on well-formed stored strings where
the two agree. -/
def parseNotifiedIDs (s : List Char) : List (List Char) :=
  if s ≠ [] ∧ s ≠ ['[', ']'] then
    let trimmed := (s.drop 1).dropLast
    if trimmed ≠ [] then
      (((splitOnCommaL trimmed).map (fun part => trimQuoteL (trimSpaceL part))).filter
        (fun cleaned => !cleaned.isEmpty))
    else []
  else []

/-- The serialisation phase of `Store.UpdateNotifiedProductIDs` (JSON
store): quote every ID, join with commas, and bracket. -/
def buildNotifiedIDs (ids : List (List Char)) : List Char :=
  if ids = [] then ['[', ']']
  else '[' :: joinCommaL (ids.map quoteL) ++ [']']

/-- The body of `Store.UpdateNotifiedProductIDs` acting on the stored
string: parse, return the string unchanged when the product ID is already
present (the `return nil` early exit), otherwise append the ID and
serialise. -/
def updateNotifiedIDs (s productID : List Char) : List Char :=
  let ids := parseNotifiedIDs s
  if ids.contains productID then s
  else buildNotifiedIDs (ids ++ [productID])

/-- `Store.UpdateNotifiedProductIDs` (JSON store, lines 627-681): the
subscription map is modelled as an association list from subscription ID to
the stored `NotifiedProductIDs` string; a missing subscription is the
`new arrival subscription not found` error. -/
def Store.updateNotifiedProductIDs (subs : List (String × String))
    (subscriptionID productID : String) : Except String (List (String × String)) :=
  match lookupA subs subscriptionID with
  | none => .error "new arrival subscription not found"
  | some s =>
    .ok (insertA subs subscriptionID (updateNotifiedIDs s.data productID.data).asString)

/-- The body of the subscription loop of `Dispatcher.NotifyNewArrival`
(notify/dispatcher.go lines 130-176), translated statement by statement:

* disabled subscriptions are skipped (the `Paused` flag is not read);
* the notified-IDs string is unmarshalled (`unmarshalIDs` models
  `json.Unmarshal`) and scanned, but the `continue` at line 143 binds to
  that scan loop itself, so the scan has no effect on control flow; it is
  translated as a fold that leaves the state unchanged;
* non-matching products are skipped;
* with a configured bark key and a non-nil bark service the notifier is
  invoked; on failure the loop continues without touching the store; on
  success `store.UpdateNotifiedProductIDs` runs (its error is only logged).

The accumulator carries the send events so far and the notified-IDs store.
-/
def Dispatcher.processArrivalSub (unmarshalIDs : String → Option (List String))
    (send : NewArrivalSubscription → Product → Bool) (barkAvailable : Bool)
    (product : Product) (acc : List SendEvent × List (String × String))
    (sub : NewArrivalSubscription) : List SendEvent × List (String × String) :=
  if !sub.enabled then acc
  else
    let _scan : Unit :=
      if sub.notifiedProductIDs ≠ "" then
        match unmarshalIDs sub.notifiedProductIDs with
        | some notifiedIDs => notifiedIDs.foldl (fun u id => if id = product.id then u else u) ()
        | none => ()
      else ()
    if !(Dispatcher.matchesSubscription product sub) then acc
    else if sub.barkKey ≠ "" ∧ barkAvailable then
      if !(send sub product) then (acc.1 ++ [⟨sub.id, sub.barkKey, false⟩], acc.2)
      else
        let store1 :=
          match Store.updateNotifiedProductIDs acc.2 sub.id product.id with
          | .ok m => m
          | .error _ => acc.2
        (acc.1 ++ [⟨sub.id, sub.barkKey, true⟩], store1)
    else acc

/-- `Dispatcher.NotifyNewArrival` (notify/dispatcher.go lines 119-179):
sequential fold of `processArrivalSub` over the subscriptions. -/
def Dispatcher.notifyNewArrival (unmarshalIDs : String → Option (List String))
    (send : NewArrivalSubscription → Product → Bool) (barkAvailable : Bool)
    (product : Product) (subs : List NewArrivalSubscription)
    (store : List (String × String)) : List SendEvent × List (String × String) :=
  subs.foldl (Dispatcher.processArrivalSub unmarshalIDs send barkAvailable product) ([], store)

/-- `SQLiteStore.trendScore` (store/sqlite.go lines 814-834). -/
def SQLiteStore.trendScore (history : List PriceHistory) : ℚ :=
  if history.length < 3 then 0
  else
    let recent := history.drop (history.length - 3)
    let startPrice := (recent.headD default).price
    let endPrice := ((recent.drop 2).headD default).price
    let change := (endPrice - startPrice) / startPrice
    if change < -(2 / 100) then 25
    else if change < -(1 / 100) then 20
    else if change < 0 then 15
    else if change > 2 / 100 then 0
    else 10

/-- `SQLiteStore.stockScore` (store/sqlite.go lines 836-845). -/
def SQLiteStore.stockScore (status : String) : ℚ :=
  if status = "available" then 15
  else if status = "limited" then 10
  else 0

/-- `SQLiteStore.pricePositionScore` (store/sqlite.go lines 847-877). -/
def SQLiteStore.pricePositionScore (currentPrice : ℚ) (history : List PriceHistory) : ℚ :=
  if history.length = 0 then 10
  else
    let h0 := (history.headD default).price
    let mm := history.foldl
      (fun (mm : ℚ × ℚ) h =>
        (if h.price < mm.1 then h.price else mm.1,
         if h.price > mm.2 then h.price else mm.2)) (h0, h0)
    if mm.2 = mm.1 then 10
    else
      let position := (currentPrice - mm.1) / (mm.2 - mm.1)
      if position ≤ 1 / 10 then 20
      else if position ≤ 3 / 10 then 15
      else if position ≤ 5 / 10 then 10
      else if position ≤ 7 / 10 then 5
      else 0

/-- `SQLiteStore.ageScore` (store/sqlite.go lines 879-891), times in
seconds. -/
def SQLiteStore.ageScore (createdAt now : ℚ) : ℚ :=
  let days := (now - createdAt) / 86400
  if days ≤ 7 then 10
  else if days ≤ 30 then 7
  else if days ≤ 90 then 3
  else 0

/-- `SQLiteStore.CalculateValueScore` (store/sqlite.go lines 782-812):
base 50 plus the four weighted components, then the two sequential caps. -/
def SQLiteStore.CalculateValueScore (product : Product) (history : List PriceHistory)
    (now : ℚ) : ℚ :=
  let score : ℚ := 50
  let score := score + SQLiteStore.trendScore history * (14 / 10)
  let score := score + SQLiteStore.stockScore product.stockStatus * (133 / 100)
  let score := score + SQLiteStore.pricePositionScore product.price history * (15 / 10)
  let score := score + SQLiteStore.ageScore product.createdAt now * (15 / 10)
  let score := if score > 100 then 100 else score
  let score := if score < 0 then 0 else score
  score

/-- State of the SQLite store: the `products` table keyed by ID and the
`price_history` table grouped by product and ordered by `recorded_at`
(rows are only ever appended with the current timestamp, so insertion
order is retrieval order).  `SQLiteStore.updateProductStats` issues a
direct `UPDATE` of the stats columns that is immediately overwritten by
the final `INSERT ... ON CONFLICT` of `UpsertProduct` (which sets every
stats column from the candidate struct), so it has no effect on the final
row and is not modelled separately. -/
structure SQLiteState where
  products : List (String × Product)
  history : List (String × List PriceHistory)
deriving DecidableEq

/-- `SQLiteStore.UpsertProduct` (store/sqlite.go lines 439-534):

* new product: `CreatedAt = now`, returns `(false, 0)`; no history row is
  written;
* existing product: `oldPrice` is always the stored price (sqlite.go:459
  `always set oldPrice to distinguish from new products`); a history row
  holding the **previous** price is inserted only when the price differs —
  with no trimming, the `price_history` table only ever grows; `CreatedAt`
  and, when the candidate's are empty, `Description`/`SpecsDetail` are taken
  from the stored row; the value score is recomputed; finally the row is
  replaced by the candidate via `INSERT ... ON CONFLICT`. -/
def SQLiteStore.upsertProduct (st : SQLiteState) (product : Product) (now : ℚ) :
    SQLiteState × Bool × ℚ :=
  match lookupA st.products product.id with
  | none =>
    let p1 := { product with createdAt := now, updatedAt := now }
    (⟨insertA st.products p1.id p1, st.history⟩, false, 0)
  | some existing =>
    let oldPrice := existing.price
    let priceChanged := decide (existing.price ≠ product.price)
    let hist :=
      if existing.price ≠ product.price then
        insertA st.history product.id
          (((lookupA st.history product.id).getD []) ++
            [⟨product.id, existing.price, now, product.discount⟩])
      else st.history
    let p1 := { product with createdAt := existing.createdAt }
    let p1 :=
      if product.description = "" ∧ existing.description ≠ "" then
        { p1 with description := existing.description }
      else p1
    let p1 :=
      if product.specsDetail = "" ∧ existing.specsDetail ≠ "" then
        { p1 with specsDetail := existing.specsDetail }
      else p1
    let h := (lookupA hist product.id).getD []
    let p1 := { p1 with valueScore := SQLiteStore.CalculateValueScore p1 h now }
    let p1 := { p1 with updatedAt := now }
    (⟨insertA st.products p1.id p1, hist⟩, priceChanged, oldPrice)

/-- Counters of `DetailStats` affected by one `processWithRetry` call, plus
the observable behaviour of the call: how many fetches were made, which
backoffs were slept, and whether a description was obtained. -/
structure RetryOutcome where
  fetchCalls : ℕ
  backoffs : List ℕ
  succeeded : Bool
  statsRetries : ℕ
  statsSuccess : ℕ
  statsFailed : ℕ
  statsProcessed : ℕ
deriving DecidableEq

/-- The `for attempt := 0; attempt <= d.retryMax; attempt++` loop of
`DetailScraper.processWithRetry` (scraper/detail_scraper.go lines 176-213).
`fetch n` is the description string returned by
`d.scraper.ScrapeProductDetails` on the loop iteration with
`attempt = n` (the external fetch).  On an iteration with `attempt > 0` the
worker first sleeps `retryDelay * (1 <<< (attempt-1))` and counts a retry
(`time.Duration` is an integer count of nanoseconds, modelled in seconds as
a natural number); a
non-empty description persists the product and ends the loop as a success;
falling off the loop marks the item failed.  `fuel` is the number of loop
iterations still allowed, initially `retryMax + 1`. -/
def DetailScraper.runAttempts (fetch : ℕ → String) (retryDelay : ℕ) :
    ℕ → ℕ → RetryOutcome → RetryOutcome
  | _, 0, acc =>
    { acc with
        statsFailed := acc.statsFailed + 1
        statsProcessed := acc.statsProcessed + 1 }
  | attempt, fuel + 1, acc =>
    let acc :=
      if 0 < attempt then
        { acc with
            backoffs := acc.backoffs ++ [retryDelay * 2 ^ (attempt - 1)]
            statsRetries := acc.statsRetries + 1 }
      else acc
    let desc := fetch attempt
    let acc := { acc with fetchCalls := acc.fetchCalls + 1 }
    if desc ≠ "" then
      { acc with
          succeeded := true
          statsSuccess := acc.statsSuccess + 1
          statsProcessed := acc.statsProcessed + 1 }
    else
      DetailScraper.runAttempts fetch retryDelay (attempt + 1) fuel acc

/-- `DetailScraper.processWithRetry` with the constants of
`NewDetailScraper` (scraper/detail_scraper.go lines 37-49):
`retryMax = 3`, `retryDelay = 2` seconds. -/
def DetailScraper.processWithRetry (fetch : ℕ → String) : RetryOutcome :=
  DetailScraper.runAttempts fetch 2 0 (3 + 1) ⟨0, [], false, 0, 0, 0, 0⟩

/-- Case-insensitive substring containment, as the spec words it: the
lowercased keyword occurs inside the lowercased text. -/
def SubstrCI (text kw : String) : Prop :=
  ∃ l r, lowerL text.data = l ++ lowerL kw.data ++ r

/-- What the dispatcher's `contains(name, kw)` actually accepts: a
case-insensitive substring when the name is strictly longer than the
keyword, but only an exact (case-sensitive) equality when the lengths are
equal, and nothing when the keyword is longer. -/
def KeywordHitGo (name kw : String) : Prop :=
  (name.data.length = kw.data.length ∧ name = kw) ∨
    (name.data.length > kw.data.length ∧ SubstrCI name kw)

/-- The matching predicate exactly as the spec sentence claims it
(`Modelled from the spec`, for comparison with the code's
`Dispatcher.matchesSubscription`): every supplied filter dimension must
accept the product, an empty list accepting everything — category
membership, model/chip/storage/memory keyword containment (case-insensitive
substring over the name and raw spec string), free-text keyword containment
across name and raw spec string, price within [min,max] with 0 unbounded,
and stock-status membership. -/
def specClaimMatches (p : Product) (sub : NewArrivalSubscription) : Prop :=
  (sub.categories = [] ∨ p.category ∈ sub.categories) ∧
  (sub.stockStatuses = [] ∨ p.stockStatus ∈ sub.stockStatuses) ∧
  (sub.minPrice = 0 ∨ sub.minPrice ≤ p.price) ∧
  (sub.maxPrice = 0 ∨ p.price ≤ sub.maxPrice) ∧
  (sub.models = [] ∨ ∃ kw ∈ sub.models, SubstrCI (p.name ++ p.specs) kw) ∧
  (sub.chips = [] ∨ ∃ kw ∈ sub.chips, SubstrCI (p.name ++ p.specs) kw) ∧
  (sub.storages = [] ∨ ∃ kw ∈ sub.storages, SubstrCI (p.name ++ p.specs) kw) ∧
  (sub.memories = [] ∨ ∃ kw ∈ sub.memories, SubstrCI (p.name ++ p.specs) kw) ∧
  (sub.keywords = [] ∨ ∃ kw ∈ sub.keywords, SubstrCI (p.name ++ p.specs) kw)

/-- A product ID is well formed for the hand-rolled JSON array codec of
`UpdateNotifiedProductIDs` when it is nonempty, comma-free and neither
starts nor ends with a double quote (all generated IDs, of the shape
`cn:<category>:<base36 hash>`, satisfy this). -/
def WfId (id : List Char) : Prop :=
  id ≠ [] ∧ ',' ∉ id ∧ id.head? ≠ some '"' ∧ id.getLast? ≠ some '"'

instance (id : List Char) : Decidable (WfId id) := by
  unfold WfId; infer_instance

/-- The stored `NotifiedProductIDs` strings reachable through the store:
the initial empty string, the literal empty array, or the serialisation of
a nonempty list of well-formed IDs.  (On such strings the Go byte slicing
`s[1:len(s)-1]` is defined and agrees with the model.) -/
def WfNotified (s : List Char) : Prop :=
  s = [] ∨ s = ['[', ']'] ∨
    ∃ l, l ≠ [] ∧ (∀ id ∈ l, WfId id) ∧ s = buildNotifiedIDs l

/-- A concrete `cn`-region Mac product used by the concrete evaluations
below. -/
def baseProduct : Product :=
  { id := "p1", name := "MacBook Air M2", category := "Mac", region := "cn",
    price := 8000, originalPrice := 9499, discount := 11, imageURL := "",
    productURL := "https://e", specs := "8GB 256GB", specsDetail := "",
    description := "", stockStatus := "available", valueScore := 0,
    lowestPrice := 0, highestPrice := 0, priceTrend := "",
    createdAt := 0, updatedAt := 0 }

/-- The stored product of the enrichment-preservation demonstrations: same
identity as `baseProduct`, already enriched with a description and detail
specs. -/
def enrichedDemo : Product :=
  { baseProduct with description := "enriched", specsDetail := "sd" }

/-- A sold-out variant of `baseProduct`. -/
def soldOutDemo : Product := { baseProduct with stockStatus := "sold_out" }

/-- A new-arrival subscription whose only supplied filter dimension is a
stock-status list. -/
def stockSub : NewArrivalSubscription :=
  { id := "s2", name := "stock watcher", categories := [], models := [], chips := [],
    storages := [], memories := [], stockStatuses := ["available"], maxPrice := 0,
    minPrice := 0, keywords := [], barkKey := "k2", notifiedProductIDs := "",
    enabled := true, paused := false, notificationCount := 0 }

/-- One hundred and two consecutive upserts of the same identity into an
empty SQLite store, at prices 0, 1, ..., 101: the first inserts the product,
each later one is a price change. -/
def sqliteDemoRun : SQLiteState :=
  (List.range 102).foldl
    (fun st n =>
      (SQLiteStore.upsertProduct st { baseProduct with price := (n : ℚ) } (n : ℚ)).1)
    ⟨[], []⟩

lemma lookupA_insertA_self {α : Type} (m : List (String × α)) (k : String) (v : α) :
    lookupA (insertA m k v) k = some v := by
  induction m with
  | nil => simp [insertA, lookupA]
  | cons kv rest ih =>
    obtain ⟨k0, v0⟩ := kv
    by_cases h : k0 = k
    · simp [insertA, lookupA, h]
    · simp [insertA, lookupA, h, ih]

lemma lookupA_insertA_ne {α : Type} (m : List (String × α)) (k key : String) (v : α)
    (h : key ≠ k) : lookupA (insertA m k v) key = lookupA m key := by
  induction m with
  | nil => simp [insertA, lookupA, Ne.symm h]
  | cons kv rest ih =>
    obtain ⟨k0, v0⟩ := kv
    by_cases h0 : k0 = k
    · subst h0
      simp [insertA, lookupA, Ne.symm h]
    · simp only [insertA, if_neg h0, lookupA]
      by_cases h1 : k0 = key
      · simp [h1]
      · simp [h1, ih]

lemma clampTail_bounds (s : ℚ) :
    0 ≤ (if s > 100 then (100 : ℚ) else if s < 0 then 0 else s) ∧
      (if s > 100 then (100 : ℚ) else if s < 0 then 0 else s) ≤ 100 := by
  split_ifs with h1 h2 <;> constructor <;> linarith

lemma clampSeq_bounds (s : ℚ) :
    0 ≤ (if (if s > 100 then (100 : ℚ) else s) < 0 then 0 else if s > 100 then (100 : ℚ) else s) ∧
      (if (if s > 100 then (100 : ℚ) else s) < 0 then 0 else if s > 100 then (100 : ℚ) else s) ≤ 100 := by
  split_ifs with h1 h2 <;> constructor <;> linarith

lemma updatePriceStats_price (p : Product) (h : List PriceHistory) :
    (Store.updatePriceStats p h).price = p.price := by
  unfold Store.updatePriceStats
  dsimp only
  split_ifs <;> rfl

lemma updatePriceStats_createdAt (p : Product) (h : List PriceHistory) :
    (Store.updatePriceStats p h).createdAt = p.createdAt := by
  unfold Store.updatePriceStats
  dsimp only
  split_ifs <;> rfl

lemma updatePriceStats_id (p : Product) (h : List PriceHistory) :
    (Store.updatePriceStats p h).id = p.id := by
  unfold Store.updatePriceStats
  dsimp only
  split_ifs <;> rfl

lemma finishUpsert_spec (products : List (String × Product))
    (history : List (String × List PriceHistory)) (p : Product) (now : ℚ)
    (pc : Bool) (old : ℚ) :
    (Store.finishUpsert products history p now pc old).2.1 = pc ∧
    (Store.finishUpsert products history p now pc old).2.2 = old ∧
    (Store.finishUpsert products history p now pc old).1.history = history ∧
    ∃ q, lookupA (Store.finishUpsert products history p now pc old).1.products p.id = some q ∧
      q.price = p.price ∧ q.createdAt = p.createdAt := by
  unfold Store.finishUpsert
  dsimp only
  refine ⟨rfl, rfl, rfl, ?_⟩
  refine ⟨?_, ?_, ?_, ?_⟩
  case refine_2 =>
    rw [updatePriceStats_id]
    exact lookupA_insertA_self _ _ _
  case refine_3 => exact updatePriceStats_price _ _
  case refine_4 => exact updatePriceStats_createdAt _ _

lemma startsWithL_iff (n : List Char) : ∀ l, startsWithL l n = true ↔ ∃ r, l = n ++ r := by
  induction n with
  | nil =>
    intro l
    simp [startsWithL]
  | cons d ds ih =>
    intro l
    cases l with
    | nil => simp [startsWithL]
    | cons c cs =>
      simp only [startsWithL, Bool.and_eq_true, decide_eq_true_eq, ih]
      constructor
      · rintro ⟨rfl, r, rfl⟩
        exact ⟨r, rfl⟩
      · rintro ⟨r, h⟩
        injection h with h1 h2
        exact ⟨h1, r, h2⟩

lemma substrScan_iff (n : List Char) :
    ∀ hay, substrScan n hay = true ↔ ∃ l r, hay = l ++ (n ++ r) := by
  intro hay
  induction hay with
  | nil =>
    simp only [substrScan, startsWithL_iff]
    constructor
    · rintro ⟨r, hr⟩
      exact ⟨[], r, hr⟩
    · rintro ⟨l, r, hr⟩
      rcases List.append_eq_nil.mp hr.symm with ⟨rfl, h2⟩
      exact ⟨r, by simpa using hr⟩
  | cons c rest ih =>
    simp only [substrScan, Bool.or_eq_true, startsWithL_iff, ih]
    constructor
    · rintro (⟨r, hr⟩ | ⟨l, r, hr⟩)
      · exact ⟨[], r, by simpa using hr⟩
      · exact ⟨c :: l, r, by simp [hr]⟩
    · rintro ⟨l, r, hr⟩
      cases l with
      | nil => exact Or.inl ⟨r, by simpa using hr⟩
      | cons c2 l2 =>
        injection hr with h1 h2
        exact Or.inr ⟨l2, r, h2⟩

lemma containsGo_iff (name kw : String) :
    containsGo name.data kw.data = true ↔ KeywordHitGo name kw := by
  unfold containsGo KeywordHitGo SubstrCI
  simp only [Bool.and_eq_true, Bool.or_eq_true, decide_eq_true_eq]
  constructor
  · rintro ⟨hge, heq | ⟨hgt, hcase⟩⟩
    · refine Or.inl ⟨by rw [heq], ?_⟩
      cases name with
      | mk d1 =>
        cases kw with
        | mk d2 => exact congrArg String.mk heq
    · refine Or.inr ⟨hgt, ?_⟩
      rcases hcase with (htake | hdrop) | hci
      · refine ⟨[], lowerL (name.data.drop kw.data.length), ?_⟩
        conv_lhs => rw [show name.data = kw.data ++ name.data.drop kw.data.length by
          conv_lhs => rw [← List.take_append_drop kw.data.length name.data, htake]]
        simp [lowerL]
      · refine ⟨lowerL (name.data.take (name.data.length - kw.data.length)), [], ?_⟩
        conv_lhs => rw [show name.data =
          name.data.take (name.data.length - kw.data.length) ++ kw.data by
          conv_lhs => rw [← List.take_append_drop (name.data.length - kw.data.length) name.data,
            hdrop]]
        simp [lowerL]
      · obtain ⟨l, r, hr⟩ := (substrScan_iff _ _).mp hci
        exact ⟨l, r, by rw [hr, List.append_assoc]⟩
  · rintro (⟨hlen, rfl⟩ | ⟨hgt, l, r, hr⟩)
    · exact ⟨le_rfl, Or.inl rfl⟩
    · refine ⟨le_of_lt hgt, Or.inr ⟨hgt, Or.inr ?_⟩⟩
      exact (substrScan_iff _ _).mpr ⟨l, r, by rw [hr, List.append_assoc]⟩

lemma splitOnCommaL_cons (c : Char) (rest : List Char) :
    splitOnCommaL (c :: rest) =
      if c = ',' then [] :: splitOnCommaL rest
      else
        match splitOnCommaL rest with
        | [] => [[c]]
        | p :: ps => (c :: p) :: ps := rfl

lemma splitOnCommaL_ne_nil (l : List Char) : splitOnCommaL l ≠ [] := by
  cases l with
  | nil => simp [splitOnCommaL]
  | cons c rest =>
    rw [splitOnCommaL_cons]
    split_ifs
    · simp
    · cases h : splitOnCommaL rest <;> simp

lemma splitOnCommaL_single (p : List Char) (h : ',' ∉ p) : splitOnCommaL p = [p] := by
  induction p with
  | nil => rfl
  | cons c cs ih =>
    have hc : ¬ c = ',' := fun hc => h (hc ▸ List.mem_cons_self c cs)
    rw [splitOnCommaL_cons, if_neg hc, ih (fun hm => h (List.mem_cons_of_mem c hm))]

lemma splitOnCommaL_append (p rest : List Char) (h : ',' ∉ p) :
    splitOnCommaL (p ++ ',' :: rest) = p :: splitOnCommaL rest := by
  induction p with
  | nil =>
    simp only [List.nil_append]
    rw [splitOnCommaL_cons, if_pos rfl]
  | cons c cs ih =>
    have hc : ¬ c = ',' := fun hc => h (hc ▸ List.mem_cons_self c cs)
    simp only [List.cons_append]
    rw [splitOnCommaL_cons, if_neg hc, ih (fun hm => h (List.mem_cons_of_mem c hm))]

lemma splitOnCommaL_joinCommaL (parts : List (List Char)) (hne : parts ≠ [])
    (h : ∀ p ∈ parts, ',' ∉ p) : splitOnCommaL (joinCommaL parts) = parts := by
  induction parts with
  | nil => exact absurd rfl hne
  | cons p ps ih =>
    cases ps with
    | nil =>
      show splitOnCommaL (joinCommaL [p]) = [p]
      rw [show joinCommaL [p] = p from rfl]
      exact splitOnCommaL_single p (h p (List.mem_cons_self p []))
    | cons q qs =>
      rw [show joinCommaL (p :: q :: qs) = p ++ ',' :: joinCommaL (q :: qs) from rfl]
      rw [splitOnCommaL_append p _ (h p (List.mem_cons_self p _))]
      rw [ih (by simp) (fun x hx => h x (List.mem_cons_of_mem p hx))]

lemma splitOnCommaL_no_comma (l : List Char) :
    ∀ part ∈ splitOnCommaL l, ',' ∉ part := by
  induction l with
  | nil =>
    intro part hp
    simp only [splitOnCommaL, List.mem_singleton] at hp
    simp [hp]
  | cons c rest ih =>
    intro part hp
    rw [splitOnCommaL_cons] at hp
    by_cases hc : c = ','
    · rw [if_pos hc] at hp
      rcases List.mem_cons.mp hp with hp | hp
      · simp [hp]
      · exact ih part hp
    · rw [if_neg hc] at hp
      rcases hsp : splitOnCommaL rest with _ | ⟨p0, ps⟩
      · exact absurd hsp (splitOnCommaL_ne_nil rest)
      · rw [hsp] at hp
        rcases List.mem_cons.mp hp with hp | hp
        · intro hmem
          rw [hp] at hmem
          rcases List.mem_cons.mp hmem with hm | hm
          · exact hc hm.symm
          · exact ih p0 (by rw [hsp]; exact List.mem_cons_self p0 ps) hm
        · exact ih part (by rw [hsp]; exact List.mem_cons_of_mem p0 hp)

lemma trimSpaceL_quoteL (id : List Char) : trimSpaceL (quoteL id) = quoteL id := by
  unfold trimSpaceL quoteL
  simp only [List.cons_append]
  rw [List.dropWhile_cons, if_neg (by decide)]
  rw [show ('"' :: (id ++ ['"'])).reverse = '"' :: (id.reverse ++ ['"']) by simp]
  rw [List.dropWhile_cons, if_neg (by decide)]
  simp

lemma head?_dropWhile_neg (p : Char → Bool) (l : List Char) :
    ∀ c, (l.dropWhile p).head? = some c → p c = false := by
  induction l with
  | nil => intro c hc; simp [List.dropWhile] at hc
  | cons a rest ih =>
    intro c hc
    rw [List.dropWhile_cons] at hc
    by_cases ha : p a = true
    · rw [if_pos ha] at hc
      exact ih c hc
    · rw [if_neg ha] at hc
      simp only [List.head?_cons, Option.some.injEq] at hc
      rw [← hc]
      exact Bool.eq_false_iff.mpr ha

lemma trimQuoteL_quoteL (id : List Char) (h1 : id.head? ≠ some '"')
    (h2 : id.getLast? ≠ some '"') : trimQuoteL (quoteL id) = id := by
  cases id with
  | nil => rfl
  | cons x xs =>
    have hx : ¬ x = '"' := fun hx => h1 (by simp [hx])
    unfold trimQuoteL quoteL
    simp only [List.cons_append]
    rw [List.dropWhile_cons, if_pos (by decide)]
    rw [List.dropWhile_cons, if_neg (by simp [hx])]
    rw [show (x :: (xs ++ ['"'])).reverse = '"' :: (x :: xs).reverse by simp]
    rw [List.dropWhile_cons, if_pos (by decide)]
    rcases hrev : (x :: xs).reverse with _ | ⟨y, ys⟩
    · simp at hrev
    · have hy : (x :: xs).getLast? = some y := by
        rw [← List.head?_reverse, hrev, List.head?_cons]
      have hyq : ¬ y = '"' := fun hq => h2 (hq ▸ hy)
      rw [List.dropWhile_cons, if_neg (by simp [hyq])]
      rw [← hrev, List.reverse_reverse]

lemma trimQuoteL_getLast_ne (l : List Char) : (trimQuoteL l).getLast? ≠ some '"' := by
  unfold trimQuoteL
  intro hc
  rw [List.getLast?_reverse] at hc
  have := head?_dropWhile_neg (fun c => c = '"') _ _ hc
  simp at this

lemma trimQuoteL_head_ne (l : List Char) : (trimQuoteL l).head? ≠ some '"' := by
  unfold trimQuoteL
  intro hc
  rw [List.head?_reverse] at hc
  obtain ⟨t, ht⟩ := List.dropWhile_suffix (l := (List.dropWhile (fun c => c = '"') l).reverse)
    (fun c => c = '"')
  have hne : (List.dropWhile (fun c => c = '"')
      (List.dropWhile (fun c => c = '"') l).reverse) ≠ [] := by
    intro h0
    rw [h0] at hc
    simp at hc
  have hlast : ((List.dropWhile (fun c => c = '"') l).reverse).getLast? = some '"' := by
    rw [← ht, List.getLast?_append_of_ne_nil _ hne]
    exact hc
  rw [List.getLast?_reverse] at hlast
  have := head?_dropWhile_neg (fun c => c = '"') _ _ hlast
  simp at this

lemma mem_trimSpaceL {c : Char} {l : List Char} (h : c ∈ trimSpaceL l) : c ∈ l := by
  unfold trimSpaceL at h
  rw [List.mem_reverse] at h
  have h2 := (List.dropWhile_suffix Char.isWhitespace).sublist.subset h
  rw [List.mem_reverse] at h2
  exact (List.dropWhile_suffix Char.isWhitespace).sublist.subset h2

lemma mem_trimQuoteL {c : Char} {l : List Char} (h : c ∈ trimQuoteL l) : c ∈ l := by
  unfold trimQuoteL at h
  rw [List.mem_reverse] at h
  have h2 := (List.dropWhile_suffix (fun c => c = '"')).sublist.subset h
  rw [List.mem_reverse] at h2
  exact (List.dropWhile_suffix (fun c => c = '"')).sublist.subset h2

lemma wf_parseNotifiedIDs (s : List Char) :
    ∀ id ∈ parseNotifiedIDs s, WfId id := by
  intro id hid
  unfold parseNotifiedIDs at hid
  dsimp only at hid
  split_ifs at hid with h1 h2
  · obtain ⟨hmem, hkeep⟩ := List.mem_filter.mp hid
    obtain ⟨part, hpart, hclean⟩ := List.mem_map.mp hmem
    refine ⟨?_, ?_, ?_, ?_⟩
    · intro h0
      rw [h0] at hkeep
      simp at hkeep
    · intro hmemc
      rw [← hclean] at hmemc
      exact splitOnCommaL_no_comma _ part hpart (mem_trimSpaceL (mem_trimQuoteL hmemc))
    · rw [← hclean]
      exact trimQuoteL_head_ne _
    · rw [← hclean]
      exact trimQuoteL_getLast_ne _
  · simp at hid
  · simp at hid

lemma joinCommaL_map_quoteL_ne_nil (l : List (List Char)) (hne : l ≠ []) :
    joinCommaL (l.map quoteL) ≠ [] := by
  cases l with
  | nil => exact absurd rfl hne
  | cons a as =>
    cases as with
    | nil =>
      show joinCommaL [quoteL a] ≠ []
      rw [show joinCommaL [quoteL a] = quoteL a from rfl]
      simp [quoteL]
    | cons b bs =>
      show joinCommaL (quoteL a :: quoteL b :: bs.map quoteL) ≠ []
      rw [show joinCommaL (quoteL a :: quoteL b :: bs.map quoteL) =
        quoteL a ++ ',' :: joinCommaL (quoteL b :: bs.map quoteL) from rfl]
      simp [quoteL]

lemma comma_not_mem_quoteL (id : List Char) (h : ',' ∉ id) : ',' ∉ quoteL id := by
  unfold quoteL
  intro hmem
  simp only [List.cons_append, List.mem_cons, List.mem_append, List.mem_singleton] at hmem
  rcases hmem with hc | hc | hc
  · exact absurd hc (by decide)
  · exact h hc
  · exact absurd hc (by decide)

lemma parse_build (l : List (List Char)) (hne : l ≠ []) (hwf : ∀ id ∈ l, WfId id) :
    parseNotifiedIDs (buildNotifiedIDs l) = l := by
  have hjoin_ne : joinCommaL (l.map quoteL) ≠ [] := joinCommaL_map_quoteL_ne_nil l hne
  unfold buildNotifiedIDs
  rw [if_neg hne]
  unfold parseNotifiedIDs
  dsimp only
  rw [if_pos ?hcond]
  case hcond =>
    constructor
    · simp
    · intro heq
      have hlen := congrArg List.length heq
      simp at hlen
      exact hjoin_ne hlen
  rw [show ('[' :: joinCommaL (l.map quoteL)) ++ [']'] =
      '[' :: (joinCommaL (l.map quoteL) ++ [']']) from by simp]
  rw [show List.drop 1 ('[' :: (joinCommaL (l.map quoteL) ++ [']'])) =
      joinCommaL (l.map quoteL) ++ [']'] from rfl]
  rw [List.dropLast_concat]
  rw [if_pos hjoin_ne]
  rw [splitOnCommaL_joinCommaL (l.map quoteL) (by simpa using hne) ?hcm]
  case hcm =>
    intro p hp
    obtain ⟨id, hid, rfl⟩ := List.mem_map.mp hp
    exact comma_not_mem_quoteL id (hwf id hid).2.1
  rw [List.map_map]
  rw [List.map_congr_left (fun id hid => ?_)]
  · rw [List.map_id]
    refine List.filter_eq_self.mpr (fun id hid => ?_)
    simpa using (hwf id hid).1
  · show trimQuoteL (trimSpaceL (quoteL id)) = id
    rw [trimSpaceL_quoteL]
    exact trimQuoteL_quoteL id (hwf id hid).2.2.1 (hwf id hid).2.2.2

/-- Claim C1 (code bug): the dispatcher is supposed to skip a new-arrival
subscription whose notified-set already contains the product identity, but
the `continue` at dispatcher.go:143 binds to the inner scan loop, so the
dedup check is a no-op: with `p1` already recorded in the subscription's
notified-set, a matching new-arrival dispatch still invokes the notifier
and delivers again.  The conjuncts show, at a concrete input, that the
product ID is in the parsed notified-set and that a successful send event
is nevertheless produced. -/
theorem C1_dedup_noop :
    "p1".data ∈ parseNotifiedIDs ("[\"p1\"]".data) ∧
    (Dispatcher.notifyNewArrival (fun _ => some ["p1"]) (fun _ _ => true) true baseProduct
      [{ id := "s1", name := "watcher", categories := [], models := [], chips := [],
         storages := [], memories := [], stockStatuses := [], maxPrice := 0, minPrice := 0,
         keywords := [], barkKey := "k1", notifiedProductIDs := "[\"p1\"]", enabled := true,
         paused := false, notificationCount := 0 }]
      [("s1", "[\"p1\"]")]).1 = [⟨"s1", "k1", true⟩] := by
  constructor
  · decide
  · decide

/-- Claim C2 counterexample: an enrichment item whose fetch never yields a
description is fetched 4 times, not the 3 the claim states (the loop runs
`attempt = 0 .. retryMax` with `retryMax = 3`). -/
theorem C2_counterexample :
    (DetailScraper.processWithRetry (fun _ => "")).fetchCalls = 4 ∧
    (DetailScraper.processWithRetry (fun _ => "")).fetchCalls ≠ 3 := by
  decide

/-- Claim C2 (amended): an enrichment item whose fetch never yields a
description is attempted exactly 4 times in total (one immediate fetch and
three retries with backoffs of 2, 4 and 8 seconds — strictly increasing,
each double the previous), then marked failed exactly once (failure and
processed counters each incremented by one, success counter untouched) and
not processed again within that enqueue. -/
theorem C2_amended (fetch : ℕ → String) (hf : ∀ n, fetch n = "") :
    DetailScraper.processWithRetry fetch =
      { fetchCalls := 4, backoffs := [2, 4, 8], succeeded := false,
        statsRetries := 3, statsSuccess := 0, statsFailed := 1, statsProcessed := 1 } ∧
    ((2 : ℕ) < 4 ∧ (4 : ℕ) < 8) ∧ (4 : ℕ) = 2 * 2 ∧ (8 : ℕ) = 2 * 4 := by
  obtain rfl : fetch = fun _ => "" := funext hf
  refine ⟨by decide, by decide, by decide, by decide⟩

theorem C2_amended_witness :
    DetailScraper.processWithRetry (fun _ => "") =
      { fetchCalls := 4, backoffs := [2, 4, 8], succeeded := false,
        statsRetries := 3, statsSuccess := 0, statsFailed := 1, statsProcessed := 1 } :=
  (C2_amended (fun _ => "") (fun _ => rfl)).1

/-- Claim C3 (code bug): the JSON store's `UpsertProduct` returns only
`(priceChanged, oldPrice)` and the scheduler derives
`isNewProduct := !priceChanged && oldPrice == 0`.  On first sight this is
correct (first three conjuncts after the two initial ones: the record is
inserted with creation timestamp `now` and a one-entry history at the
current price, and the derivation says new).  But re-upserting the same
unchanged product returns `(false, 0)` again — the JSON store never sets
`oldPrice` when the price is unchanged — so the scheduler's derivation
reports an already-present product as new (last three conjuncts),
contradicting the claim and the documented intent (sqlite.go:459 sets
`oldPrice` for every existing product precisely "to distinguish from new
products"). -/
theorem C3_isNew_bug :
    (Store.upsertProduct ⟨[], []⟩ baseProduct 10).2.1 = false ∧
    (Store.upsertProduct ⟨[], []⟩ baseProduct 10).2.2 = 0 ∧
    Scheduler.isNewProduct (Store.upsertProduct ⟨[], []⟩ baseProduct 10).2.1
      (Store.upsertProduct ⟨[], []⟩ baseProduct 10).2.2 = true ∧
    (lookupA (Store.upsertProduct ⟨[], []⟩ baseProduct 10).1.products "p1").map
      Product.createdAt = some 10 ∧
    ((lookupA (Store.upsertProduct ⟨[], []⟩ baseProduct 10).1.history "p1").getD []).map
      PriceHistory.price = [8000] ∧
    (lookupA (Store.upsertProduct ⟨[], []⟩ baseProduct 10).1.products "p1").isSome = true ∧
    (Store.upsertProduct (Store.upsertProduct ⟨[], []⟩ baseProduct 10).1 baseProduct 20).2.1
      = false ∧
    (Store.upsertProduct (Store.upsertProduct ⟨[], []⟩ baseProduct 10).1 baseProduct 20).2.2
      = 0 ∧
    Scheduler.isNewProduct
      (Store.upsertProduct (Store.upsertProduct ⟨[], []⟩ baseProduct 10).1 baseProduct 20).2.1
      (Store.upsertProduct (Store.upsertProduct ⟨[], []⟩ baseProduct 10).1 baseProduct 20).2.2
      = true := by
  refine ⟨by decide, by decide, by decide, by decide, by decide, by decide,
    by decide, by decide, by decide⟩

/-- Claim C4: upserting an already-stored product at a differing price
returns `priceChanged = true` and the previously stored price as
`oldPrice`, appends a history entry holding the previous price (and
previous discount) to that product's history — trimmed to the bound by
dropping the oldest entry — and overwrites the stored price with the
candidate's while preserving the creation timestamp. -/
theorem C4_price_change (st : StoreState) (p existing : Product) (now : ℚ)
    (hlook : lookupA st.products p.id = some existing)
    (hdiff : existing.price ≠ p.price) :
    (Store.upsertProduct st p now).2.1 = true ∧
    (Store.upsertProduct st p now).2.2 = existing.price ∧
    (lookupA (Store.upsertProduct st p now).1.history p.id).getD [] =
      (if (((lookupA st.history p.id).getD []) ++
            [(⟨p.id, existing.price, now, existing.discount⟩ : PriceHistory)]).length > maxHistoryPerProduct
       then (((lookupA st.history p.id).getD []) ++
            [(⟨p.id, existing.price, now, existing.discount⟩ : PriceHistory)]).drop 1
       else ((lookupA st.history p.id).getD []) ++
            [(⟨p.id, existing.price, now, existing.discount⟩ : PriceHistory)]) ∧
    ∃ q, lookupA (Store.upsertProduct st p now).1.products p.id = some q ∧
      q.price = p.price ∧ q.createdAt = existing.createdAt := by
  unfold Store.upsertProduct
  rw [hlook]
  dsimp only
  rw [if_pos hdiff]
  obtain ⟨h1, h2, h3, q, hq, hqp, hqc⟩ :=
    finishUpsert_spec st.products
      (insertA st.history p.id
        (if (((lookupA st.history p.id).getD []) ++
              [(⟨p.id, existing.price, now, existing.discount⟩ : PriceHistory)]).length > maxHistoryPerProduct
         then (((lookupA st.history p.id).getD []) ++
              [(⟨p.id, existing.price, now, existing.discount⟩ : PriceHistory)]).drop 1
         else ((lookupA st.history p.id).getD []) ++
              [(⟨p.id, existing.price, now, existing.discount⟩ : PriceHistory)]))
      { p with createdAt := existing.createdAt } now true existing.price
  refine ⟨h1, h2, ?_, q, hq, hqp, hqc⟩
  rw [h3, lookupA_insertA_self]
  rfl

theorem C4_witness :
    (Store.upsertProduct ⟨[("p1", baseProduct)], [("p1", [⟨"p1", 8000, 0, 11⟩])]⟩
      { baseProduct with price := 7500 } 100).2.1 = true ∧
    (Store.upsertProduct ⟨[("p1", baseProduct)], [("p1", [⟨"p1", 8000, 0, 11⟩])]⟩
      { baseProduct with price := 7500 } 100).2.2 = 8000 := by
  have h := C4_price_change ⟨[("p1", baseProduct)], [("p1", [⟨"p1", 8000, 0, 11⟩])]⟩
    { baseProduct with price := 7500 } baseProduct 100 (by decide) (by decide)
  exact ⟨h.1, h.2.1⟩

/-- Claim C5 counterexample: a subscription whose only supplied filter is
`stockStatuses = [available]` still matches a sold-out product, because
`matchesSubscription` never reads the stock-status (or model, chip,
storage, memory) filters; the spec's claimed predicate
(`specClaimMatches`) rejects it. -/
theorem C5_counterexample :
    Dispatcher.matchesSubscription soldOutDemo stockSub = true ∧
    ¬ specClaimMatches soldOutDemo stockSub := by
  refine ⟨by decide, fun h => ?_⟩
  rcases h.2.1 with hnil | hmem
  · exact absurd hnil (by decide)
  · exact absurd hmem (by decide)

/-- Claim C5 (amended): a product matches a new-arrival subscription if and
only if the three dimensions the code actually checks all accept it —
category membership (empty list accepts all), price within `[min, max]`
with a nonpositive bound unbounded on that side, and some keyword hitting
the product name — where a keyword hit is case-insensitive substring
containment when the name is strictly longer than the keyword but exact
case-sensitive equality when the lengths are equal.  The model, chip,
storage, memory and stock-status filters and the raw spec string are not
consulted. -/
theorem C5_amended (p : Product) (sub : NewArrivalSubscription) :
    Dispatcher.matchesSubscription p sub = true ↔
      (sub.categories = [] ∨ p.category ∈ sub.categories) ∧
      (sub.minPrice ≤ 0 ∨ sub.minPrice ≤ p.price) ∧
      (sub.maxPrice ≤ 0 ∨ p.price ≤ sub.maxPrice) ∧
      (sub.keywords = [] ∨ ∃ kw ∈ sub.keywords, KeywordHitGo p.name kw) := by
  unfold Dispatcher.matchesSubscription
  split_ifs with h1 h2 h3 h4
  · simp only [false_iff]
    rintro ⟨hcat, -, -, -⟩
    obtain ⟨hlen, hany⟩ := h1
    rcases hcat with hnil | hmem
    · rw [hnil] at hlen
      simp at hlen
    · exact hany (List.any_eq_true.mpr ⟨_, hmem, by simp⟩)
  · simp only [false_iff]
    rintro ⟨-, hmin, -, -⟩
    obtain ⟨hpos, hlt⟩ := h2
    rcases hmin with hle | hge
    · linarith
    · linarith
  · simp only [false_iff]
    rintro ⟨-, -, hmax, -⟩
    obtain ⟨hpos, hgt⟩ := h3
    rcases hmax with hle | hge
    · linarith
    · linarith
  · simp only [false_iff]
    rintro ⟨-, -, -, hkw⟩
    obtain ⟨hlen, hany⟩ := h4
    rcases hkw with hnil | ⟨kw, hmem, hhit⟩
    · rw [hnil] at hlen
      simp at hlen
    · exact hany (List.any_eq_true.mpr ⟨kw, hmem,
        by simpa using (containsGo_iff p.name kw).mpr hhit⟩)
  · simp only [true_iff]
    push_neg at h1 h2 h3 h4
    refine ⟨?_, ?_, ?_, ?_⟩
    · by_cases hc : sub.categories = []
      · exact Or.inl hc
      · have hlen : sub.categories.length > 0 := List.length_pos.mpr hc
        obtain ⟨x, hx, hxx⟩ := List.any_eq_true.mp (h1 hlen)
        simp only [decide_eq_true_eq] at hxx
        exact Or.inr (hxx ▸ hx)
    · by_cases hm : sub.minPrice > 0
      · exact Or.inr (le_of_not_lt (fun hlt => absurd (h2 hm) (not_le.mpr hlt)))
      · exact Or.inl (le_of_not_lt hm)
    · by_cases hm : sub.maxPrice > 0
      · exact Or.inr (le_of_not_lt (fun hlt => absurd (h3 hm) (not_le.mpr hlt)))
      · exact Or.inl (le_of_not_lt hm)
    · by_cases hk : sub.keywords = []
      · exact Or.inl hk
      · have hlen : sub.keywords.length > 0 := List.length_pos.mpr hk
        obtain ⟨kw, hmem, hhit⟩ := List.any_eq_true.mp (h4 hlen)
        refine Or.inr ⟨kw, hmem, (containsGo_iff p.name kw).mp ?_⟩
        simpa using hhit

/-- Claim C6 counterexample: in the in-memory JSON store, upserting a
candidate with an empty description over a record whose stored description
is `enriched` leaves an empty description — the JSON store replaces the
record wholesale, erasing previously-enriched data, so the claim fails for
that store implementation. -/
theorem C6_counterexample :
    ((lookupA (Store.upsertProduct
        ⟨[("p1", { baseProduct with description := "enriched", specsDetail := "sd" })],
          [("p1", [⟨"p1", 8000, 0, 11⟩])]⟩
        baseProduct 100).1.products "p1").map Product.description) = some "" ∧
    ("" : String) ≠ "enriched" := by
  constructor
  · decide
  · decide

/-- Claim C6 (amended): in the SQLite store, upserting an already-stored
product whose candidate description (resp. detail-specs) field is empty
while the stored one is non-empty preserves the stored value. -/
theorem C6_amended (st : SQLiteState) (p existing : Product) (now : ℚ)
    (hlook : lookupA st.products p.id = some existing) :
    ∃ q, lookupA (SQLiteStore.upsertProduct st p now).1.products p.id = some q ∧
      (p.description = "" → existing.description ≠ "" →
        q.description = existing.description) ∧
      (p.specsDetail = "" → existing.specsDetail ≠ "" →
        q.specsDetail = existing.specsDetail) := by
  unfold SQLiteStore.upsertProduct
  rw [hlook]
  dsimp only
  by_cases hd : p.description = "" ∧ existing.description ≠ ""
  · by_cases hs : p.specsDetail = "" ∧ existing.specsDetail ≠ ""
    · simp only [if_pos hd, if_pos hs]
      exact ⟨_, lookupA_insertA_self _ _ _, fun _ _ => rfl, fun _ _ => rfl⟩
    · simp only [if_pos hd, if_neg hs]
      exact ⟨_, lookupA_insertA_self _ _ _, fun _ _ => rfl, fun hA hB => absurd ⟨hA, hB⟩ hs⟩
  · by_cases hs : p.specsDetail = "" ∧ existing.specsDetail ≠ ""
    · simp only [if_neg hd, if_pos hs]
      exact ⟨_, lookupA_insertA_self _ _ _, fun hA hB => absurd ⟨hA, hB⟩ hd, fun _ _ => rfl⟩
    · simp only [if_neg hd, if_neg hs]
      exact ⟨_, lookupA_insertA_self _ _ _, fun hA hB => absurd ⟨hA, hB⟩ hd,
        fun hA hB => absurd ⟨hA, hB⟩ hs⟩

theorem C6_witness :
    ((lookupA (SQLiteStore.upsertProduct ⟨[("p1", enrichedDemo)], []⟩
        baseProduct 5).1.products baseProduct.id).getD baseProduct).description = "enriched" ∧
    ((lookupA (SQLiteStore.upsertProduct ⟨[("p1", enrichedDemo)], []⟩
        baseProduct 5).1.products baseProduct.id).getD baseProduct).specsDetail = "sd" := by
  obtain ⟨q, hq, himp1, himp2⟩ := C6_amended ⟨[("p1", enrichedDemo)], []⟩
    baseProduct enrichedDemo 5 (by decide)
  rw [hq]
  exact ⟨himp1 rfl (by decide), himp2 rfl (by decide)⟩

set_option maxRecDepth 100000 in
/-- Claim C7 counterexample: the SQLite store never trims `price_history`;
after 101 price changes of one product the history holds 101 entries,
exceeding the claimed bound of `maxHistoryPerProduct = 100`. -/
theorem C7_counterexample :
    ((lookupA sqliteDemoRun.history "p1").getD []).length = 101 ∧
    101 > maxHistoryPerProduct := by
  constructor
  · decide
  · decide

/-- Claim C7 (amended): in the in-memory JSON store, one upsert preserves
the history bound `maxHistoryPerProduct` (first conjunct), leaves every
other product's history untouched (second), and on an overflowing price
change drops exactly the oldest entry — the head of the appended list
(third). -/
theorem C7_amended (st : StoreState) (p : Product) (now : ℚ)
    (hb : ((lookupA st.history p.id).getD []).length ≤ maxHistoryPerProduct) :
    ((lookupA (Store.upsertProduct st p now).1.history p.id).getD []).length ≤
      maxHistoryPerProduct ∧
    (∀ id, id ≠ p.id → lookupA (Store.upsertProduct st p now).1.history id =
      lookupA st.history id) ∧
    (∀ existing, lookupA st.products p.id = some existing → existing.price ≠ p.price →
      ((lookupA st.history p.id).getD []).length = maxHistoryPerProduct →
      (lookupA (Store.upsertProduct st p now).1.history p.id).getD [] =
        (((lookupA st.history p.id).getD []) ++
          [(⟨p.id, existing.price, now, existing.discount⟩ : PriceHistory)]).drop 1) := by
  rcases hEx : lookupA st.products p.id with _ | existing
  · unfold Store.upsertProduct
    rw [hEx]
    dsimp only [Store.finishUpsert]
    refine ⟨?_, ?_, ?_⟩
    · rw [lookupA_insertA_self]
      simp [maxHistoryPerProduct]
    · intro id hid
      exact lookupA_insertA_ne _ _ _ _ hid
    · intro existing hsome
      simp [hEx] at hsome
  · by_cases hdiff : existing.price ≠ p.price
    · unfold Store.upsertProduct
      rw [hEx]
      dsimp only [Store.finishUpsert]
      rw [if_pos hdiff]
      dsimp only
      refine ⟨?_, ?_, ?_⟩
      · rw [lookupA_insertA_self]
        simp only [Option.getD_some]
        split_ifs with hlen
        · simp only [List.length_drop, List.length_append, List.length_cons, List.length_nil]
          omega
        · simp only [List.length_append, List.length_cons, List.length_nil] at hlen ⊢
          omega
      · intro id hid
        exact lookupA_insertA_ne _ _ _ _ hid
      · intro ex2 hsome hdiff2 hfull
        injection hsome with hsome
        subst hsome
        rw [lookupA_insertA_self]
        simp only [Option.getD_some]
        rw [if_pos]
        simp only [List.length_append, List.length_cons, List.length_nil, hfull]
        omega
    · unfold Store.upsertProduct
      rw [hEx]
      dsimp only [Store.finishUpsert]
      rw [if_neg hdiff]
      dsimp only
      refine ⟨hb, fun id hid => rfl, ?_⟩
      intro ex2 hsome hdiff2 hfull
      injection hsome with hsome
      subst hsome
      exact absurd hdiff2 hdiff

theorem C7_witness :
    ((lookupA (⟨[], []⟩ : StoreState).history "p1").getD []).length ≤ maxHistoryPerProduct ∧
    ((lookupA (Store.upsertProduct ⟨[], []⟩ baseProduct 0).1.history "p1").getD []).length ≤
      maxHistoryPerProduct :=
  ⟨by decide, (C7_amended ⟨[], []⟩ baseProduct 0 (by decide)).1⟩

/-- Claim C8: for every product, price history and timestamp, both value
score computations — the JSON store's `calculateValueScore` and the SQLite
store's `CalculateValueScore` — return a score in the closed interval
[0, 100], thanks to the final clamp in each. -/
theorem C8_value_score_bounds (p : Product) (h : List PriceHistory) (now : ℚ) :
    (0 ≤ Store.calculateValueScore p h now ∧ Store.calculateValueScore p h now ≤ 100) ∧
      (0 ≤ SQLiteStore.CalculateValueScore p h now ∧
        SQLiteStore.CalculateValueScore p h now ≤ 100) :=
  ⟨clampTail_bounds _, clampSeq_bounds _⟩

/-- Claim C9 (code bug): in price-change dispatch a subscription with
target price 0 (documented in model/product.go as "0 = any drop") is
notified on a price **rise** as well: with the price moving from 8000 up to
8100 the dispatcher still invokes the notifier, because the only skip
condition is `targetPrice > 0 && newPrice > targetPrice`. -/
theorem C9_rise_bug :
    Dispatcher.notifyPriceChange (fun _ => true) true 8100
      [{ id := "s1", productID := "p1", barkKey := "k1", targetPrice := 0, createdAt := 0 }] =
      [⟨"s1", "k1", true⟩] ∧ (8100 : ℚ) > 8000 := by
  constructor
  · decide
  · norm_num

/-- Claim C10: `UpdateNotifiedProductIDs` (JSON store) on an existing
subscription returns no error and rebuilds the stored string; if the
product ID is already in the parsed notified-set the stored string is left
exactly unchanged (idempotence), and if not, the new stored string parses
to exactly the old ID list extended by that one ID (monotone, no removal,
no duplicate introduced) and is again a well-formed stored string.  The
`WfNotified` hypothesis restricts to the stored strings reachable through
the store, on which the Go byte slicing agrees with the model. -/
theorem C10_notified_set (subs : List (String × String)) (sid pid s : String)
    (hlook : lookupA subs sid = some s)
    (hwfs : WfNotified s.data) (hwfp : WfId pid.data) :
    Store.updateNotifiedProductIDs subs sid pid =
      .ok (insertA subs sid (updateNotifiedIDs s.data pid.data).asString) ∧
    (pid.data ∈ parseNotifiedIDs s.data → updateNotifiedIDs s.data pid.data = s.data) ∧
    (pid.data ∉ parseNotifiedIDs s.data →
      parseNotifiedIDs (updateNotifiedIDs s.data pid.data) =
        parseNotifiedIDs s.data ++ [pid.data] ∧
      WfNotified (updateNotifiedIDs s.data pid.data)) := by
  refine ⟨?_, ?_, ?_⟩
  · unfold Store.updateNotifiedProductIDs
    rw [hlook]
  · intro hmem
    unfold updateNotifiedIDs
    rw [if_pos (by simpa [List.contains] using hmem)]
  · intro hmem
    have hcont : ¬ (parseNotifiedIDs s.data).contains pid.data = true := by
      simpa [List.contains] using hmem
    have hupd : updateNotifiedIDs s.data pid.data =
        buildNotifiedIDs (parseNotifiedIDs s.data ++ [pid.data]) := by
      unfold updateNotifiedIDs
      rw [if_neg hcont]
    have hwfl : ∀ id ∈ parseNotifiedIDs s.data ++ [pid.data], WfId id := by
      intro id hid
      rcases List.mem_append.mp hid with hid | hid
      · exact wf_parseNotifiedIDs s.data id hid
      · rw [List.mem_singleton.mp hid]
        exact hwfp
    have hne : parseNotifiedIDs s.data ++ [pid.data] ≠ [] := by simp
    constructor
    · rw [hupd, parse_build _ hne hwfl]
    · rw [hupd]
      exact Or.inr (Or.inr ⟨parseNotifiedIDs s.data ++ [pid.data], hne, hwfl, rfl⟩)

theorem C10_witness :
    Store.updateNotifiedProductIDs [("s1", "[\"a\"]")] "s1" "p1" =
      .ok (insertA [("s1", "[\"a\"]")] "s1"
        (updateNotifiedIDs ("[\"a\"]".data) ("p1".data)).asString) ∧
    parseNotifiedIDs (updateNotifiedIDs ("[\"a\"]".data) ("p1".data)) =
      parseNotifiedIDs ("[\"a\"]".data) ++ ["p1".data] := by
  have h := C10_notified_set [("s1", "[\"a\"]")] "s1" "p1" "[\"a\"]" (by decide)
    (Or.inr (Or.inr ⟨[['a']], by decide, by decide, by decide⟩)) (by decide)
  exact ⟨h.1, (h.2.2 (by decide)).1⟩

